import Mathlib

/-!
Shallow embedding of the NWB attribute-adapter pipeline
(`pipeline/nwb_adapter.py`, `pipeline/behavior.py`,
`pipeline/intracellular.py`).

The external HDF5/NWB codec is modelled as an opaque store mapping path
strings to file data; the relational store's `insert1` is modelled as
producing the row value.  Machine floats are modelled as rationals
extended with the NumPy non-finite values `nan` and `inf`, which is what
`1 / np.mean(np.diff(ts))` produces on degenerate timestamp sequences.
-/

/-- Identifier-assignment manager of an open NWB file handle
(`NWBHDF5IO(...).manager` in pynwb). -/
structure Manager where
  mid : Nat
deriving DecidableEq

/-- An open NWB file handle (`NWBHDF5IO` object); all the pipeline uses of
it go through its `manager`. -/
structure IOHandle where
  manager : Manager
deriving DecidableEq

/-- A NumPy scalar value: an exact rational, or one of the two non-finite
results NumPy produces on degenerate inputs (`mean` of an empty array is
`nan`; `1/0.0` is `inf`). -/
inductive NumV where
  | num (q : ℚ)
  | nan
  | inf
deriving DecidableEq

/-- Reciprocal on NumPy values: `1/nan = nan`, `1/0.0 = inf`, `1/inf = 0.0`. -/
def NumV.recip : NumV → NumV
  | num q => if q = 0 then inf else num q⁻¹
  | nan => nan
  | inf => num 0

/-- One typed sub-object inside an NWB container (pynwb assigns every
contained object a `name` and a `neurodata_type`; series carry data,
`starting_time` and `rate`).  The `io` field models the handle attribute
the adapters stitch onto a decoded sub-object (`patch_clamp.io = io`). -/
structure SubObj where
  name : String
  neurodata_type : String
  data : List ℚ
  starting_time : ℚ
  rate : NumV
  io : Option IOHandle := none
deriving DecidableEq

/-- An in-memory NWB container (`pynwb.file.NWBFile`): an identifier, the
flat index `nwb.objects` of contained sub-objects, and the stitched-on
`io` handle attribute (absent until some call site sets `nwb.io = ...`). -/
structure NWBCont where
  identifier : String
  objects : List SubObj
  io : Option IOHandle := none
deriving DecidableEq

/-- Model of `pynwb.file.NWBFile.copy()`: the copy shares scientific
content but the dynamically stitched `io` attribute is not carried over
(the ingestion code re-attaches it explicitly on the next line). -/
def NWBCont.copy (c : NWBCont) : NWBCont :=
  { c with io := none }

/-- Model of adding a sub-object to the container's flat object index
(covers `create_device`, `create_ic_electrode` and `add_acquisition`,
each of which registers one new object). -/
def NWBCont.addObj (c : NWBCont) (s : SubObj) : NWBCont :=
  { c with objects := c.objects ++ [s] }

/-- Contents found at a path in the store: a completely serialized
container (recording which sharing manager the write used), or the
truncated remains of an interrupted serialization. -/
inductive FileData where
  | complete (c : NWBCont) (m : Option Manager)
  | truncated
deriving DecidableEq

/-- The filesystem under the configured store, as an association list
from path strings to file data. -/
abbrev FS := List (String × FileData)

def fsGet : FS → String → Option FileData
  | [], _ => none
  | (q, d) :: rest, p => if q = p then some d else fsGet rest p

/-- Model of `pathlib.Path.exists`. -/
def fsExists (fs : FS) (p : String) : Bool :=
  (fsGet fs p).isSome

/-- Model of `pathlib.Path.unlink`. -/
def fsDel (fs : FS) (p : String) : FS :=
  fs.filter (fun e => e.1 ≠ p)

/-- Overwrite (or create) the file at a path. -/
def fsSet (fs : FS) (p : String) (d : FileData) : FS :=
  (p, d) :: fsDel fs p

/-- Outcome of one attempt of the opaque codec to serialize a container:
success, an exception after the destination was created and partially
written, or an exception before the destination was touched. -/
inductive WriteOutcome where
  | ok
  | failMidWrite
  | failNoFile
deriving DecidableEq

/-- Model of `_write_nwb(save_fp, nwb2write, manager=None)`
(`nwb_adapter.py:90-97`): open the destination in write mode and
serialize; on any exception, unlink the destination if it exists, then
re-raise.  The error payload is the filesystem after cleanup. -/
def _write_nwb (fs : FS) (p : String) (c : NWBCont) (m : Option Manager)
    (o : WriteOutcome) : Except FS FS :=
  match o with
  | .ok => .ok (fsSet fs p (.complete c m))
  | .failMidWrite =>
      let fs1 := fsSet fs p .truncated
      .error (if fsExists fs1 p then fsDel fs1 p else fs1)
  | .failNoFile =>
      .error (if fsExists fs p then fsDel fs p else fs)

/-- Errors an adapter body can raise: `[...][0]` on an empty list raises
IndexError; `nwb.io` on an object that never had it stitched raises
AttributeError; a codec failure propagates out of `_write_nwb`. -/
inductive AdapterErr where
  | indexError
  | attributeError
  | writeError
  | fileNotFound
deriving DecidableEq

/-- The comprehension `[obj for obj in objs if obj.neurodata_type == tag]`
followed by `[0]`: `none` models the IndexError on an empty match list;
otherwise the FIRST match is taken, however many there are. -/
def extractFirst (tag : String) (objs : List SubObj) : Option SubObj :=
  (objs.filter (fun s => s.neurodata_type = tag)).head?

/-- Directory for whole-session files (`nwb_session_dir`). -/
def sessionDir (exported : String) : String :=
  exported ++ "/session"

/-- Directory for per-series files (`nwb_mp_dir`). -/
def mpDir (exported : String) : String :=
  exported ++ "/membrane_potential"

/-- Model of `NWBFile.put` (`nwb_adapter.py:18-24`): the destination is
`<session dir>/<identifier>.nwb` and the write passes no manager. -/
def NWBFile.put (exported : String) (fs : FS) (nwb : NWBCont)
    (o : WriteOutcome) : Except (AdapterErr × FS) (String × FS) :=
  let save_fp := sessionDir exported ++ "/" ++ nwb.identifier ++ ".nwb"
  match _write_nwb fs save_fp nwb none o with
  | .ok fs' => .ok (save_fp, fs')
  | .error fs' => .error (.writeError, fs')

/-- Model of `NWBFile.get` (`nwb_adapter.py:26-30`): open the path read
only with a fresh handle `h`, read the container, stitch `nwb.io = io`. -/
def NWBFile.get (fs : FS) (path : String) (h : IOHandle) :
    Except AdapterErr NWBCont :=
  match fsGet fs path with
  | some (.complete c _) => .ok { c with io := some h }
  | _ => .error .fileNotFound

/-- Model of `PatchClampSeries.put` (`nwb_adapter.py:37-46`): take the
first `PatchClampSeries` object of the container, name the destination
`<mp dir>/<identifier>_<series name>.nwb`, and serialize the WHOLE
container with `manager=nwb.io.manager`. -/
def PatchClampSeries.put (exported : String) (fs : FS) (nwb : NWBCont)
    (o : WriteOutcome) : Except (AdapterErr × FS) (String × FS) :=
  match extractFirst "PatchClampSeries" nwb.objects with
  | none => .error (.indexError, fs)
  | some pc =>
    let save_fp := mpDir exported ++ "/" ++ nwb.identifier ++ "_" ++ pc.name ++ ".nwb"
    match nwb.io with
    | none => .error (.attributeError, fs)
    | some h =>
      match _write_nwb fs save_fp nwb (some h.manager) o with
      | .ok fs' => .ok (save_fp, fs')
      | .error fs' => .error (.writeError, fs')

/-- Model of `PatchClampSeries.get` (`nwb_adapter.py:48-54`): read the
container at the path, take the first `PatchClampSeries` object, stitch
the read handle onto it, return the sub-object. -/
def PatchClampSeries.get (fs : FS) (path : String) (h : IOHandle) :
    Except AdapterErr SubObj :=
  match fsGet fs path with
  | some (.complete c _) =>
    match extractFirst "PatchClampSeries" c.objects with
    | none => .error .indexError
    | some pc => .ok { pc with io := some h }
  | _ => .error .fileNotFound

/-- Model of `CurrentClampStimulusSeries.put` (`nwb_adapter.py:61-70`). -/
def CurrentClampStimulusSeries.put (exported : String) (fs : FS)
    (nwb : NWBCont) (o : WriteOutcome) :
    Except (AdapterErr × FS) (String × FS) :=
  match extractFirst "CurrentClampStimulusSeries" nwb.objects with
  | none => .error (.indexError, fs)
  | some cs =>
    let save_fp := mpDir exported ++ "/" ++ nwb.identifier ++ "_" ++ cs.name ++ ".nwb"
    match nwb.io with
    | none => .error (.attributeError, fs)
    | some h =>
      match _write_nwb fs save_fp nwb (some h.manager) o with
      | .ok fs' => .ok (save_fp, fs')
      | .error fs' => .error (.writeError, fs')

/-- Model of `CurrentClampStimulusSeries.get` (`nwb_adapter.py:72-78`). -/
def CurrentClampStimulusSeries.get (fs : FS) (path : String) (h : IOHandle) :
    Except AdapterErr SubObj :=
  match fsGet fs path with
  | some (.complete c _) =>
    match extractFirst "CurrentClampStimulusSeries" c.objects with
    | none => .error .indexError
    | some cs => .ok { cs with io := some h }
  | _ => .error .fileNotFound

/-- Model of `np.diff(xs)`: successive differences `xs[i+1] - xs[i]`. -/
def npDiff (xs : List ℚ) : List ℚ :=
  List.zipWith (fun a b => b - a) xs xs.tail

/-- Model of `np.mean(xs)`: the arithmetic mean, and `nan` (with only a
RuntimeWarning, not an exception) when `xs` is empty. -/
def npMean : List ℚ → NumV
  | [] => .nan
  | xs => .num (xs.sum / xs.length)

/-- The sampling-rate computation `1 / np.mean(np.diff(ts))` shared by
all three ingestion routines. -/
def sampRate (ts : List ℚ) : NumV :=
  NumV.recip (npMean (npDiff ts))

/-- A uniformly spaced timestamp sequence `[t0, t0+d, t0+2d, ...]` of the
given length. -/
def uniformTs (t0 d : ℚ) : Nat → List ℚ
  | 0 => []
  | n + 1 => t0 :: uniformTs (t0 + d) d n

/-- The last element of a timestamp sequence (0 for an empty one),
written as a total fold. -/
def lastTs (ts : List ℚ) : ℚ :=
  ts.foldl (fun _ x => x) 0

/-- The mean inter-sample interval of a timestamp sequence, stated the
way the spec words it: the span from the first to the last timestamp
divided by the number of intervals (meaningful for length at least 2). -/
def meanInterval (ts : List ℚ) : ℚ :=
  (lastTs ts - ts.headD 0) / ((ts.length : ℚ) - 1)

/-- The named arrays each ingestion routine reads from the resolved
source HDF5 file (groups `acquisition/timeseries/<name>` and
`analysis/Vm_wo_spikes/...`, each with `data` and, for acquisitions,
`timestamps`). -/
structure SessSource where
  lick_trace_L : List ℚ
  lick_trace_R : List ℚ
  lick_trace_ts : List ℚ
  membrane_potential_data : List ℚ
  membrane_potential_ts : List ℚ
  vm_wo_spike : List ℚ
  current_injection_data : List ℚ
  current_injection_ts : List ℚ
deriving DecidableEq

/-- The primary key a `make` call receives. -/
structure Key where
  subject_id : String
  session_time : String
  cell_id : String
deriving DecidableEq

/-- The `Cell` row fetched for the key (device and electrode metadata). -/
structure CellRec where
  cell_id : String
  device_name : String
deriving DecidableEq

/-- Result of running one `make` call: the row handed to `insert1` (none
when the call raised before inserting), the filesystem afterwards, the
error that propagated (if any), and whether the h5 source-file handle is
still open when the call exits. -/
structure MakeOutcome (ρ : Type) where
  row : Option ρ
  fs : FS
  err : Option AdapterErr
  sourceOpen : Bool
deriving DecidableEq

/-- Row inserted by `LickTrace.make`. -/
structure LickRow where
  key : Key
  lick_trace_left : List ℚ
  lick_trace_right : List ℚ
  lick_trace_start_time : ℚ
  lick_trace_sampling_rate : NumV
deriving DecidableEq

/-- Model of `LickTrace.make` (`behavior.py:28-45`): resolve the source
file (the locator result is the `located` argument), raise
FileNotFoundError if none; open the h5 file; read both lick arrays and
the right-trace timestamps; start time is `timestamps[0]` (IndexError on
an empty sequence); rate is `1/mean(diff(timestamps))`; insert.  The
routine never closes the h5 handle. -/
def LickTrace.make (located : Option SessSource) (key : Key) (fs : FS) :
    MakeOutcome LickRow :=
  match located with
  | none => ⟨none, fs, some .fileNotFound, false⟩
  | some src =>
    match src.lick_trace_ts.head? with
    | none => ⟨none, fs, some .indexError, true⟩
    | some t0 =>
      ⟨some { key := key
              lick_trace_left := src.lick_trace_L
              lick_trace_right := src.lick_trace_R
              lick_trace_start_time := t0
              lick_trace_sampling_rate := sampRate src.lick_trace_ts },
        fs, none, true⟩

/-- Row inserted by `MembranePotential.make`. -/
structure MPRow where
  key : Key
  nwb_patch_clamp : String
  membrane_potential : List ℚ
  membrane_potential_wo_spike : List ℚ
  membrane_potential_start_time : ℚ
  membrane_potential_sampling_rate : NumV
deriving DecidableEq

/-- The derived container `MembranePotential.make` builds: a copy of the
session container with the session's `io` re-stitched, plus the created
device, electrode, and the new `PatchClampSeries` named
`membrane_potential` carrying the raw trace, its start time and rate
(`intracellular.py:86-103`). -/
def mpDerived (sess_nwb : NWBCont) (cell : CellRec) (mp : List ℚ)
    (t0 : ℚ) (fsr : NumV) : NWBCont :=
  let base := { sess_nwb.copy with io := sess_nwb.io }
  let withDev := base.addObj
    { name := cell.device_name, neurodata_type := "Device"
      data := [], starting_time := 0, rate := .num 0 }
  let withElec := withDev.addObj
    { name := cell.cell_id, neurodata_type := "IntracellularElectrode"
      data := [], starting_time := 0, rate := .num 0 }
  withElec.addObj
    { name := "membrane_potential", neurodata_type := "PatchClampSeries"
      data := mp, starting_time := t0, rate := fsr }

/-- Model of `MembranePotential.make` (`intracellular.py:62-112`):
resolve and open the source file; read the potential, its spike-removed
variant and the timestamps; start time `timestamps[0]`, rate
`1/mean(diff)`; build the derived container sharing the session
container's `io`; `insert1` triggers `PatchClampSeries.put` on it; close
the h5 handle last (so an error anywhere in between leaves it open). -/
def MembranePotential.make (exported : String) (located : Option SessSource)
    (sess_nwb : NWBCont) (cell : CellRec) (key : Key) (fs : FS)
    (o : WriteOutcome) : MakeOutcome MPRow :=
  match located with
  | none => ⟨none, fs, some .fileNotFound, false⟩
  | some src =>
    match src.membrane_potential_ts.head? with
    | none => ⟨none, fs, some .indexError, true⟩
    | some t0 =>
      let fsr := sampRate src.membrane_potential_ts
      let mp_nwb := mpDerived sess_nwb cell src.membrane_potential_data t0 fsr
      match PatchClampSeries.put exported fs mp_nwb o with
      | .error (e, fs') => ⟨none, fs', some e, true⟩
      | .ok (path, fs') =>
        ⟨some { key := key
                nwb_patch_clamp := path
                membrane_potential := src.membrane_potential_data
                membrane_potential_wo_spike := src.vm_wo_spike
                membrane_potential_start_time := t0
                membrane_potential_sampling_rate := fsr },
          fs', none, false⟩

/-- Row inserted by `CurrentInjection.make`. -/
structure CIRow where
  key : Key
  nwb_current_stim : String
  current_injection : List ℚ
  current_injection_start_time : ℚ
  current_injection_sampling_rate : NumV
deriving DecidableEq

/-- The derived container `CurrentInjection.make` builds, with the new
`CurrentClampStimulusSeries` named `CurrentClampStimulus`
(`intracellular.py:148-166`). -/
def ciDerived (sess_nwb : NWBCont) (cell : CellRec) (ci : List ℚ)
    (t0 : ℚ) (fsr : NumV) : NWBCont :=
  let base := { sess_nwb.copy with io := sess_nwb.io }
  let withDev := base.addObj
    { name := cell.device_name, neurodata_type := "Device"
      data := [], starting_time := 0, rate := .num 0 }
  let withElec := withDev.addObj
    { name := cell.cell_id, neurodata_type := "IntracellularElectrode"
      data := [], starting_time := 0, rate := .num 0 }
  withElec.addObj
    { name := "CurrentClampStimulus"
      neurodata_type := "CurrentClampStimulusSeries"
      data := ci, starting_time := t0, rate := fsr }

/-- Model of `CurrentInjection.make` (`intracellular.py:126-173`), shaped
exactly like `MembranePotential.make` but over the current-injection
arrays and the stimulus-series adapter. -/
def CurrentInjection.make (exported : String) (located : Option SessSource)
    (sess_nwb : NWBCont) (cell : CellRec) (key : Key) (fs : FS)
    (o : WriteOutcome) : MakeOutcome CIRow :=
  match located with
  | none => ⟨none, fs, some .fileNotFound, false⟩
  | some src =>
    match src.current_injection_ts.head? with
    | none => ⟨none, fs, some .indexError, true⟩
    | some t0 =>
      let fsr := sampRate src.current_injection_ts
      let ci_nwb := ciDerived sess_nwb cell src.current_injection_data t0 fsr
      match CurrentClampStimulusSeries.put exported fs ci_nwb o with
      | .error (e, fs') => ⟨none, fs', some e, true⟩
      | .ok (path, fs') =>
        ⟨some { key := key
                nwb_current_stim := path
                current_injection := src.current_injection_data
                current_injection_start_time := t0
                current_injection_sampling_rate := fsr },
          fs', none, false⟩

/-- Either kind of value a Python call site may hand to an adapter:
a whole container or a bare sub-object.  The adapters' `put` reads
`nwb.objects`, `nwb.identifier` and `nwb.io`, attributes a decoded
series does not have. -/
inductive PyVal where
  | cont (c : NWBCont)
  | sub (s : SubObj)
deriving DecidableEq

/-- Dynamic dispatch of `PatchClampSeries.put`: on a container it runs
the adapter body; on a bare sub-object the first attribute access
(`nwb.objects`) raises AttributeError. -/
def PatchClampSeries.putVal (exported : String) (fs : FS) (v : PyVal)
    (o : WriteOutcome) : Except (AdapterErr × FS) (String × FS) :=
  match v with
  | .cont c => PatchClampSeries.put exported fs c o
  | .sub _ => .error (.attributeError, fs)

/-- The scientific content of a container: its identifier and, per
object, name, declared type, data array, start time and rate —
everything except the stitched-on handles. -/
def sciContent (c : NWBCont) :
    String × List (String × String × List ℚ × ℚ × NumV) :=
  (c.identifier,
   c.objects.map (fun s => (s.name, s.neurodata_type, s.data, s.starting_time, s.rate)))

/- ---- concrete sample data used by witnesses and counterexamples ---- -/

def pcsA : SubObj :=
  { name := "seriesA", neurodata_type := "PatchClampSeries"
    data := [1], starting_time := 0, rate := .num 10 }

def pcsB : SubObj :=
  { name := "seriesB", neurodata_type := "PatchClampSeries"
    data := [2], starting_time := 0, rate := .num 20 }

def sampleCont : NWBCont :=
  { identifier := "sess1", objects := [pcsA], io := some ⟨⟨1⟩⟩ }

def emptyCont : NWBCont :=
  { identifier := "sess0", objects := [], io := none }

def ambiguousCont : NWBCont :=
  { identifier := "sessA", objects := [pcsA, pcsB], io := some ⟨⟨3⟩⟩ }

def sampleFS : FS :=
  [("store/membrane_potential/f.nwb", .complete ambiguousCont none),
   ("store/session/sess0.nwb", .complete emptyCont none),
   ("store/membrane_potential/g.nwb", .complete sampleCont none)]

def key0 : Key :=
  { subject_id := "subj1", session_time := "2020-01-01", cell_id := "cell1" }

def cell0 : CellRec :=
  { cell_id := "cell1", device_name := "dev1" }

def sessCont : NWBCont :=
  { identifier := "sess1", objects := [], io := some ⟨⟨1⟩⟩ }

/-- A well-formed source whose timestamp sequences are uniform with
step 1/10 starting at 0. -/
def srcOK : SessSource :=
  { lick_trace_L := [1, 2, 3], lick_trace_R := [4, 5, 6]
    lick_trace_ts := uniformTs 0 (1 / 10) 3
    membrane_potential_data := [7, 8, 9]
    membrane_potential_ts := uniformTs 0 (1 / 10) 3
    vm_wo_spike := [7, 8]
    current_injection_data := [10, 11, 12]
    current_injection_ts := uniformTs 0 (1 / 10) 3 }

/-- A degenerate source whose timestamp sequences hold a single point. -/
def srcLen1 : SessSource :=
  { lick_trace_L := [1], lick_trace_R := [2], lick_trace_ts := [5]
    membrane_potential_data := [3], membrane_potential_ts := [5]
    vm_wo_spike := [3], current_injection_data := [4]
    current_injection_ts := [5] }

/- -------------------- helper lemmas -------------------- -/

theorem fsGet_fsDel (fs : FS) (p : String) : fsGet (fsDel fs p) p = none := by
  induction fs with
  | nil => rfl
  | cons e rest ih =>
    by_cases h : e.1 = p
    · simpa [fsDel, List.filter_cons, h] using ih
    · simpa [fsDel, List.filter_cons, h, fsGet] using ih

theorem fsGet_fsSet (fs : FS) (p : String) (d : FileData) :
    fsGet (fsSet fs p d) p = some d := by
  simp [fsSet, fsGet]

theorem fsExists_fsDel (fs : FS) (p : String) :
    fsExists (fsDel fs p) p = false := by
  simp [fsExists, fsGet_fsDel]

theorem fsExists_fsSet (fs : FS) (p : String) (d : FileData) :
    fsExists (fsSet fs p d) p = true := by
  simp [fsExists, fsGet_fsSet]

/-- Any failing serialization attempt leaves the destination absent:
the catch-all branch of `_write_nwb` unlinks whatever exists there. -/
theorem write_nwb_fail (fs : FS) (p : String) (c : NWBCont)
    (m : Option Manager) (o : WriteOutcome) (ho : o ≠ .ok) :
    ∃ fs', _write_nwb fs p c m o = .error fs' ∧ fsExists fs' p = false := by
  cases o with
  | ok => exact absurd rfl ho
  | failMidWrite =>
    refine ⟨fsDel (fsSet fs p .truncated) p, ?_, fsExists_fsDel _ _⟩
    simp [_write_nwb, fsExists_fsSet]
  | failNoFile =>
    cases hex : fsExists fs p with
    | true => exact ⟨fsDel fs p, by simp [_write_nwb, hex], fsExists_fsDel _ _⟩
    | false => exact ⟨fs, by simp [_write_nwb, hex], hex⟩

theorem npDiff_nil : npDiff [] = [] := rfl

theorem npDiff_singleton (a : ℚ) : npDiff [a] = [] := rfl

theorem npDiff_cons_cons (a b : ℚ) (l : List ℚ) :
    npDiff (a :: b :: l) = (b - a) :: npDiff (b :: l) := rfl

theorem lastTs_cons_cons (a b : ℚ) (l : List ℚ) :
    lastTs (a :: b :: l) = lastTs (b :: l) := rfl

/-- Successive differences telescope: their sum is the span from the
first to the last timestamp. -/
theorem npDiff_sum (a : ℚ) (l : List ℚ) :
    (npDiff (a :: l)).sum = lastTs (a :: l) - a := by
  induction l generalizing a with
  | nil =>
    show (0 : ℚ) = a - a
    ring
  | cons b l2 ih =>
    rw [npDiff_cons_cons, List.sum_cons, ih b, lastTs_cons_cons]
    ring

theorem npDiff_length (a : ℚ) (l : List ℚ) :
    (npDiff (a :: l)).length = l.length := by
  unfold npDiff
  rw [List.length_zipWith]
  simp only [List.tail_cons, List.length_cons]
  omega

/-- On any sequence of length at least two, the mean of the successive
differences is exactly the mean inter-sample interval of the spec:
span over number of intervals. -/
theorem npMean_npDiff (a b : ℚ) (l : List ℚ) :
    npMean (npDiff (a :: b :: l)) = .num (meanInterval (a :: b :: l)) := by
  rw [npDiff_cons_cons]
  show NumV.num (((b - a) :: npDiff (b :: l)).sum
      / (((b - a) :: npDiff (b :: l)).length : ℚ)) = _
  rw [List.sum_cons, npDiff_sum b l, List.length_cons, npDiff_length b l]
  unfold meanInterval
  rw [lastTs_cons_cons]
  have hd : (a :: b :: l).headD 0 = a := rfl
  rw [hd, List.length_cons, List.length_cons]
  congr 1
  push_cast
  ring

theorem npDiff_uniformTs (d : ℚ) :
    ∀ (n : Nat) (t0 : ℚ), npDiff (uniformTs t0 d (n + 1)) = List.replicate n d := by
  intro n
  induction n with
  | zero => intro t0; rfl
  | succ k ih =>
    intro t0
    show npDiff (t0 :: (t0 + d) :: uniformTs (t0 + d + d) d k) = _
    rw [npDiff_cons_cons]
    have : npDiff ((t0 + d) :: uniformTs (t0 + d + d) d k) =
        npDiff (uniformTs (t0 + d) d (k + 1)) := rfl
    rw [this, ih (t0 + d), List.replicate_succ]
    congr 1
    ring

theorem npMean_replicate (n : Nat) (d : ℚ) :
    npMean (List.replicate (n + 1) d) = .num d := by
  rw [List.replicate_succ]
  show NumV.num ((d :: List.replicate n d).sum / (d :: List.replicate n d).length) = _
  congr 1
  rw [List.sum_cons, List.sum_replicate, List.length_cons, List.length_replicate,
    nsmul_eq_mul]
  have hne : ((n : ℚ) + 1) ≠ 0 := by positivity
  push_cast
  field_simp
  ring

theorem sampRate_uniformTs (t0 d : ℚ) (n : Nat) (hd : d ≠ 0) :
    sampRate (uniformTs t0 d (n + 2)) = .num d⁻¹ := by
  rw [sampRate, npDiff_uniformTs d (n + 1) t0, npMean_replicate, NumV.recip,
    if_neg hd]

theorem uniformTs_head (t0 d : ℚ) (n : Nat) :
    (uniformTs t0 d (n + 1)).head? = some t0 := rfl

/-- The derived container built for a cell carries the session
container's stitched handle unchanged. -/
theorem mpDerived_io (sess : NWBCont) (cell : CellRec) (mp : List ℚ)
    (t0 : ℚ) (fsr : NumV) : (mpDerived sess cell mp t0 fsr).io = sess.io := rfl

theorem ciDerived_io (sess : NWBCont) (cell : CellRec) (ci : List ℚ)
    (t0 : ℚ) (fsr : NumV) : (ciDerived sess cell ci t0 fsr).io = sess.io := rfl

/-- Persisting the derived membrane-potential container with a healthy
codec succeeds and records, at the returned path, the whole derived
container together with the manager of the session container's handle. -/
theorem mpPut_ok (exported : String) (fs : FS) (sess : NWBCont)
    (cell : CellRec) (mp : List ℚ) (t0 : ℚ) (fsr : NumV) (h : IOHandle)
    (hio : sess.io = some h) :
    ∃ p fs', PatchClampSeries.put exported fs (mpDerived sess cell mp t0 fsr) .ok
        = .ok (p, fs')
      ∧ fsGet fs' p = some (.complete (mpDerived sess cell mp t0 fsr) (some h.manager)) := by
  have hmem : ({ name := "membrane_potential", neurodata_type := "PatchClampSeries"
                 data := mp, starting_time := t0, rate := fsr } : SubObj)
      ∈ (mpDerived sess cell mp t0 fsr).objects.filter
          (fun s => s.neurodata_type = "PatchClampSeries") := by
    rw [List.mem_filter]
    refine ⟨?_, by simp⟩
    show _ ∈ ((sess.objects ++ _) ++ _) ++ [_]
    simp
  obtain ⟨s, l, hsl⟩ :=
    List.exists_cons_of_ne_nil (List.ne_nil_of_mem hmem)
  have hE : extractFirst "PatchClampSeries" (mpDerived sess cell mp t0 fsr).objects
      = some s := by rw [extractFirst, hsl]; rfl
  have hio' : (mpDerived sess cell mp t0 fsr).io = some h :=
    (mpDerived_io sess cell mp t0 fsr).trans hio
  refine ⟨mpDir exported ++ "/" ++ (mpDerived sess cell mp t0 fsr).identifier
      ++ "_" ++ s.name ++ ".nwb",
    fsSet fs (mpDir exported ++ "/" ++ (mpDerived sess cell mp t0 fsr).identifier
      ++ "_" ++ s.name ++ ".nwb")
      (.complete (mpDerived sess cell mp t0 fsr) (some h.manager)),
    ?_, fsGet_fsSet fs _ _⟩
  unfold PatchClampSeries.put
  rw [hE, hio']
  rfl

/-- Same as `mpPut_ok` for the current-stimulus adapter. -/
theorem ciPut_ok (exported : String) (fs : FS) (sess : NWBCont)
    (cell : CellRec) (ci : List ℚ) (t0 : ℚ) (fsr : NumV) (h : IOHandle)
    (hio : sess.io = some h) :
    ∃ p fs', CurrentClampStimulusSeries.put exported fs (ciDerived sess cell ci t0 fsr) .ok
        = .ok (p, fs')
      ∧ fsGet fs' p = some (.complete (ciDerived sess cell ci t0 fsr) (some h.manager)) := by
  have hmem : ({ name := "CurrentClampStimulus"
                 neurodata_type := "CurrentClampStimulusSeries"
                 data := ci, starting_time := t0, rate := fsr } : SubObj)
      ∈ (ciDerived sess cell ci t0 fsr).objects.filter
          (fun s => s.neurodata_type = "CurrentClampStimulusSeries") := by
    rw [List.mem_filter]
    refine ⟨?_, by simp⟩
    show _ ∈ ((sess.objects ++ _) ++ _) ++ [_]
    simp
  obtain ⟨s, l, hsl⟩ :=
    List.exists_cons_of_ne_nil (List.ne_nil_of_mem hmem)
  have hE : extractFirst "CurrentClampStimulusSeries"
      (ciDerived sess cell ci t0 fsr).objects = some s := by
    rw [extractFirst, hsl]; rfl
  have hio' : (ciDerived sess cell ci t0 fsr).io = some h :=
    (ciDerived_io sess cell ci t0 fsr).trans hio
  refine ⟨mpDir exported ++ "/" ++ (ciDerived sess cell ci t0 fsr).identifier
      ++ "_" ++ s.name ++ ".nwb",
    fsSet fs (mpDir exported ++ "/" ++ (ciDerived sess cell ci t0 fsr).identifier
      ++ "_" ++ s.name ++ ".nwb")
      (.complete (ciDerived sess cell ci t0 fsr) (some h.manager)),
    ?_, fsGet_fsSet fs _ _⟩
  unfold CurrentClampStimulusSeries.put
  rw [hE, hio']
  rfl

/- -------------------- claim theorems -------------------- -/

/-- A successful session-adapter encode returns exactly the path built
from the identifier. -/
theorem nwbfile_put_path (exported : String) (fs : FS) (nwb : NWBCont)
    (o : WriteOutcome) (p : String) (f : FS)
    (hp : NWBFile.put exported fs nwb o = .ok (p, f)) :
    p = sessionDir exported ++ "/" ++ nwb.identifier ++ ".nwb" := by
  simp only [NWBFile.put] at hp
  cases hw : _write_nwb fs (sessionDir exported ++ "/" ++ nwb.identifier ++ ".nwb")
      nwb none o with
  | ok f2 =>
    rw [hw] at hp
    simp only [Except.ok.injEq, Prod.mk.injEq] at hp
    exact hp.1.symm
  | error f2 =>
    rw [hw] at hp
    simp at hp

/-- A successful derived-series encode returns exactly the path built
from the identifier and the extracted series name. -/
theorem pcs_put_path (exported : String) (fs : FS) (nwb : NWBCont)
    (o : WriteOutcome) (p : String) (f : FS) (sa : SubObj)
    (hE : extractFirst "PatchClampSeries" nwb.objects = some sa)
    (hp : PatchClampSeries.put exported fs nwb o = .ok (p, f)) :
    p = mpDir exported ++ "/" ++ nwb.identifier ++ "_" ++ sa.name ++ ".nwb" := by
  cases hi : nwb.io with
  | none =>
    rw [show PatchClampSeries.put exported fs nwb o = .error (.attributeError, fs) from by
      unfold PatchClampSeries.put; rw [hE, hi]] at hp
    simp at hp
  | some hh =>
    have hred : PatchClampSeries.put exported fs nwb o
        = (match _write_nwb fs
            (mpDir exported ++ "/" ++ nwb.identifier ++ "_" ++ sa.name ++ ".nwb")
            nwb (some hh.manager) o with
          | .ok f2 => .ok
              (mpDir exported ++ "/" ++ nwb.identifier ++ "_" ++ sa.name ++ ".nwb", f2)
          | .error f2 => .error (.writeError, f2)) := by
      unfold PatchClampSeries.put; rw [hE, hi]
    rw [hred] at hp
    cases hw : _write_nwb fs
        (mpDir exported ++ "/" ++ nwb.identifier ++ "_" ++ sa.name ++ ".nwb")
        nwb (some hh.manager) o with
    | ok f2 =>
      rw [hw] at hp
      simp only [Except.ok.injEq, Prod.mk.injEq] at hp
      exact hp.1.symm
    | error f2 =>
      rw [hw] at hp
      simp at hp

/-- Same as `pcs_put_path` for the stimulus adapter. -/
theorem ccs_put_path (exported : String) (fs : FS) (nwb : NWBCont)
    (o : WriteOutcome) (p : String) (f : FS) (sa : SubObj)
    (hE : extractFirst "CurrentClampStimulusSeries" nwb.objects = some sa)
    (hp : CurrentClampStimulusSeries.put exported fs nwb o = .ok (p, f)) :
    p = mpDir exported ++ "/" ++ nwb.identifier ++ "_" ++ sa.name ++ ".nwb" := by
  cases hi : nwb.io with
  | none =>
    rw [show CurrentClampStimulusSeries.put exported fs nwb o
        = .error (.attributeError, fs) from by
      unfold CurrentClampStimulusSeries.put; rw [hE, hi]] at hp
    simp at hp
  | some hh =>
    have hred : CurrentClampStimulusSeries.put exported fs nwb o
        = (match _write_nwb fs
            (mpDir exported ++ "/" ++ nwb.identifier ++ "_" ++ sa.name ++ ".nwb")
            nwb (some hh.manager) o with
          | .ok f2 => .ok
              (mpDir exported ++ "/" ++ nwb.identifier ++ "_" ++ sa.name ++ ".nwb", f2)
          | .error f2 => .error (.writeError, f2)) := by
      unfold CurrentClampStimulusSeries.put; rw [hE, hi]
    rw [hred] at hp
    cases hw : _write_nwb fs
        (mpDir exported ++ "/" ++ nwb.identifier ++ "_" ++ sa.name ++ ".nwb")
        nwb (some hh.manager) o with
    | ok f2 =>
      rw [hw] at hp
      simp only [Except.ok.injEq, Prod.mk.injEq] at hp
      exact hp.1.symm
    | error f2 =>
      rw [hw] at hp
      simp at hp


/-- C1: for every encode of a composite object, if serialization raises
any error then the partially-written destination file, if it was
created, is deleted before the error propagates: after a failed
`_write_nwb` the destination path does not exist, and a failed
`NWBFile.put` leaves its computed destination path absent. -/
theorem c1_failed_encode_leaves_no_destination (fs : FS) (p : String)
    (c : NWBCont) (m : Option Manager) (o : WriteOutcome) (ho : o ≠ .ok) :
    (∃ fs', _write_nwb fs p c m o = .error fs' ∧ fsExists fs' p = false)
    ∧ (∀ exported nwb fs',
        NWBFile.put exported fs nwb o = .error (.writeError, fs') →
        fsExists fs' (sessionDir exported ++ "/" ++ nwb.identifier ++ ".nwb") = false) := by
  refine ⟨write_nwb_fail fs p c m o ho, ?_⟩
  intro exported nwb fs' hput
  obtain ⟨fs'', hw, hne⟩ :=
    write_nwb_fail fs (sessionDir exported ++ "/" ++ nwb.identifier ++ ".nwb")
      nwb none o ho
  simp only [NWBFile.put, hw, Except.error.injEq, Prod.mk.injEq] at hput
  exact hput.2 ▸ hne

/-- Witness for C1: a concrete interrupted write over a store that held
a file at the destination. -/
theorem c1_failed_encode_leaves_no_destination_w :
    ∃ fs', _write_nwb sampleFS "store/session/sess0.nwb" emptyCont none
        .failMidWrite = .error fs'
      ∧ fsExists fs' "store/session/sess0.nwb" = false :=
  (c1_failed_encode_leaves_no_destination sampleFS "store/session/sess0.nwb"
    emptyCont none .failMidWrite (by decide)).1

/-- C10: when a write raises while a file already sits at the computed
destination — including a complete file left by an earlier successful
encode — the cleanup branch unlinks whatever is at that path before
propagating, whether or not this call ever touched the file. -/
theorem c10_cleanup_deletes_preexisting_file (fs : FS) (p : String)
    (c c0 : NWBCont) (m m0 : Option Manager)
    (hpre : fsGet fs p = some (.complete c0 m0)) :
    _write_nwb fs p c m .failNoFile = .error (fsDel fs p)
    ∧ _write_nwb fs p c m .failMidWrite
        = .error (fsDel (fsSet fs p .truncated) p)
    ∧ fsGet (fsDel fs p) p = none := by
  have hex : fsExists fs p = true := by simp [fsExists, hpre]
  exact ⟨by simp [_write_nwb, hex], by simp [_write_nwb, fsExists_fsSet],
    fsGet_fsDel fs p⟩

/-- Witness for C10: a failing write at a path already holding a
complete file removes that preexisting file. -/
theorem c10_cleanup_deletes_preexisting_file_w :
    _write_nwb sampleFS "store/session/sess0.nwb" sampleCont none .failNoFile
      = .error (fsDel sampleFS "store/session/sess0.nwb")
    ∧ fsGet (fsDel sampleFS "store/session/sess0.nwb")
        "store/session/sess0.nwb" = none := by
  have t := c10_cleanup_deletes_preexisting_file sampleFS
    "store/session/sess0.nwb" sampleCont emptyCont none none (by decide)
  exact ⟨t.1, t.2.2⟩

/-- C5: when no source file resolves for the key, every ingestion
routine raises a FileNotFoundError-kind error, inserts no row, leaves
the filesystem unchanged, and holds no open source handle. -/
theorem c5_no_source_file_aborts_cleanly (exported : String) (key : Key)
    (fs : FS) (sess : NWBCont) (cell : CellRec) (o : WriteOutcome) :
    LickTrace.make none key fs = ⟨none, fs, some .fileNotFound, false⟩
    ∧ MembranePotential.make exported none sess cell key fs o
        = ⟨none, fs, some .fileNotFound, false⟩
    ∧ CurrentInjection.make exported none sess cell key fs o
        = ⟨none, fs, some .fileNotFound, false⟩ :=
  ⟨rfl, rfl, rfl⟩

/-- C4: evaluation at the failing input.  On a source whose timestamp
sequence holds a single point, `LickTrace.make` does not fail: NumPy's
`mean` of the empty diff array is NaN, `1/NaN` is NaN, and the routine
inserts a row carrying NaN as the sampling rate. -/
theorem c4_single_timestamp_inserts_nan_rate :
    (LickTrace.make (some srcLen1) key0 []).err = none
    ∧ (LickTrace.make (some srcLen1) key0 []).row
        = some { key := key0, lick_trace_left := [1], lick_trace_right := [2]
                 lick_trace_start_time := 5
                 lick_trace_sampling_rate := .nan } :=
  ⟨rfl, rfl⟩

/-- C3 counterexample: a persisted container holding TWO
`PatchClampSeries` objects; decode does not fail with a lookup error —
it silently returns the first match. -/
theorem c3_ambiguity_not_rejected :
    (ambiguousCont.objects.filter
      (fun s => s.neurodata_type = "PatchClampSeries")).length = 2
    ∧ PatchClampSeries.get sampleFS "store/membrane_potential/f.nwb" ⟨⟨9⟩⟩
        = .ok { pcsA with io := some ⟨⟨9⟩⟩ } :=
  ⟨rfl, rfl⟩

/-- C3 amended: the sub-object extraction used by the derived-series
adapters' decode and encode fails with a lookup error (IndexError)
exactly when the container holds zero objects of the expected type;
when one or more exist, decode returns the first match and encode
persists under the first match's name — ambiguity is silently resolved
to the first match, never rejected. -/
theorem c3_extraction_takes_first_match (fs : FS) (p : String)
    (c : NWBCont) (m : Option Manager) (h : IOHandle)
    (hp : fsGet fs p = some (.complete c m)) :
    (c.objects.filter (fun s => s.neurodata_type = "PatchClampSeries") = [] →
      PatchClampSeries.get fs p h = .error .indexError)
    ∧ (∀ s l,
        c.objects.filter (fun s => s.neurodata_type = "PatchClampSeries") = s :: l →
        PatchClampSeries.get fs p h = .ok { s with io := some h })
    ∧ (c.objects.filter
        (fun s => s.neurodata_type = "CurrentClampStimulusSeries") = [] →
      CurrentClampStimulusSeries.get fs p h = .error .indexError)
    ∧ (∀ s l,
        c.objects.filter
          (fun s => s.neurodata_type = "CurrentClampStimulusSeries") = s :: l →
        CurrentClampStimulusSeries.get fs p h = .ok { s with io := some h })
    ∧ (∀ exported (nwb : NWBCont) (fs2 : FS) (o : WriteOutcome),
        (nwb.objects.filter (fun s => s.neurodata_type = "PatchClampSeries") = [] →
          PatchClampSeries.put exported fs2 nwb o = .error (.indexError, fs2))
        ∧ (nwb.objects.filter
            (fun s => s.neurodata_type = "CurrentClampStimulusSeries") = [] →
          CurrentClampStimulusSeries.put exported fs2 nwb o
            = .error (.indexError, fs2)))
    ∧ (∀ exported (nwb : NWBCont) (fs2 : FS) (o : WriteOutcome) (s : SubObj)
        (l : List SubObj) (p2 : String) (f : FS),
        (nwb.objects.filter (fun s => s.neurodata_type = "PatchClampSeries")
            = s :: l →
          PatchClampSeries.put exported fs2 nwb o = .ok (p2, f) →
          p2 = mpDir exported ++ "/" ++ nwb.identifier ++ "_" ++ s.name ++ ".nwb")
        ∧ (nwb.objects.filter
            (fun s => s.neurodata_type = "CurrentClampStimulusSeries") = s :: l →
          CurrentClampStimulusSeries.put exported fs2 nwb o = .ok (p2, f) →
          p2 = mpDir exported ++ "/" ++ nwb.identifier ++ "_" ++ s.name ++ ".nwb")) := by
  have hpcs : PatchClampSeries.get fs p h
      = (match extractFirst "PatchClampSeries" c.objects with
        | none => .error .indexError
        | some pc => .ok { pc with io := some h }) := by
    unfold PatchClampSeries.get; rw [hp]
  have hccs : CurrentClampStimulusSeries.get fs p h
      = (match extractFirst "CurrentClampStimulusSeries" c.objects with
        | none => .error .indexError
        | some cs => .ok { cs with io := some h }) := by
    unfold CurrentClampStimulusSeries.get; rw [hp]
  refine ⟨?_, ?_, ?_, ?_, ?_, ?_⟩
  · intro hnil
    rw [hpcs, show extractFirst "PatchClampSeries" c.objects = none from by
      unfold extractFirst; rw [hnil]; rfl]
  · intro s l hsl
    rw [hpcs, show extractFirst "PatchClampSeries" c.objects = some s from by
      unfold extractFirst; rw [hsl]; rfl]
  · intro hnil
    rw [hccs, show extractFirst "CurrentClampStimulusSeries" c.objects = none from by
      unfold extractFirst; rw [hnil]; rfl]
  · intro s l hsl
    rw [hccs, show extractFirst "CurrentClampStimulusSeries" c.objects = some s from by
      unfold extractFirst; rw [hsl]; rfl]
  · intro exported nwb fs2 o
    constructor
    · intro hnil
      unfold PatchClampSeries.put
      rw [show extractFirst "PatchClampSeries" nwb.objects = none from by
        unfold extractFirst; rw [hnil]; rfl]
    · intro hnil
      unfold CurrentClampStimulusSeries.put
      rw [show extractFirst "CurrentClampStimulusSeries" nwb.objects = none from by
        unfold extractFirst; rw [hnil]; rfl]
  · intro exported nwb fs2 o s l p2 f
    constructor
    · intro hsl hp2
      exact pcs_put_path exported fs2 nwb o p2 f s
        (by unfold extractFirst; rw [hsl]; rfl) hp2
    · intro hsl hp2
      exact ccs_put_path exported fs2 nwb o p2 f s
        (by unfold extractFirst; rw [hsl]; rfl) hp2

/-- Witness for the amended C3: a container with no stimulus series
makes the stimulus adapter's decode fail with IndexError, and its
encode fail with IndexError as well. -/
theorem c3_extraction_takes_first_match_w :
    CurrentClampStimulusSeries.get sampleFS "store/membrane_potential/g.nwb"
      ⟨⟨2⟩⟩ = .error .indexError
    ∧ CurrentClampStimulusSeries.put "st" sampleFS sampleCont .ok
        = .error (.indexError, sampleFS) := by
  have t := c3_extraction_takes_first_match sampleFS
    "store/membrane_potential/g.nwb" sampleCont none ⟨⟨2⟩⟩ (by decide)
  exact ⟨t.2.2.1 (by decide),
    (t.2.2.2.2.1 "st" sampleCont sampleFS .ok).2 (by decide)⟩

/-- C2: the derived container built by `MembranePotential.make` — a copy
of the session root with the new series attached and the session's
handle re-stitched — is persisted through the same manager the session
container's handle carries: the file recorded at the returned path was
written with `sess.io`'s manager.  The first conjunct ties `sess.io` to
the handle the whole-session adapter's decode stitched on. -/
theorem c2_shared_manager_for_derived_files (exported : String)
    (src : SessSource) (sess : NWBCont) (cell : CellRec) (key : Key)
    (fs : FS) (h : IOHandle) (hio : sess.io = some h)
    (t0 : ℚ) (rest : List ℚ)
    (hts : src.membrane_potential_ts = t0 :: rest) :
    (∀ fs0 p0 c0 m0, fsGet fs0 p0 = some (.complete c0 m0) →
      NWBFile.get fs0 p0 h = .ok { c0 with io := some h })
    ∧ ∃ r, (MembranePotential.make exported (some src) sess cell key fs .ok).row
          = some r
        ∧ fsGet (MembranePotential.make exported (some src) sess cell key fs .ok).fs
            r.nwb_patch_clamp
          = some (.complete
              (mpDerived sess cell src.membrane_potential_data t0
                (sampRate (t0 :: rest)))
              (some h.manager)) := by
  constructor
  · intro fs0 p0 c0 m0 h0
    unfold NWBFile.get; rw [h0]
  · obtain ⟨p, fs', hput, hget⟩ := mpPut_ok exported fs sess cell
      src.membrane_potential_data t0 (sampRate (t0 :: rest)) h hio
    have hmake : MembranePotential.make exported (some src) sess cell key fs .ok
        = ⟨some { key := key, nwb_patch_clamp := p
                  membrane_potential := src.membrane_potential_data
                  membrane_potential_wo_spike := src.vm_wo_spike
                  membrane_potential_start_time := t0
                  membrane_potential_sampling_rate := sampRate (t0 :: rest) },
            fs', none, false⟩ := by
      simp only [MembranePotential.make, hts, List.head?_cons, hput]
    rw [hmake]
    exact ⟨_, rfl, hget⟩

/-- Witness for C2 at a concrete session, cell and source. -/
theorem c2_shared_manager_for_derived_files_w :
    ∃ r, (MembranePotential.make "st" (some srcOK) sessCont cell0 key0 [] .ok).row
        = some r
      ∧ fsGet (MembranePotential.make "st" (some srcOK) sessCont cell0 key0 [] .ok).fs
          r.nwb_patch_clamp
        = some (.complete
            (mpDerived sessCont cell0 srcOK.membrane_potential_data 0
              (sampRate (0 :: uniformTs (0 + 1 / 10) (1 / 10) 2)))
            (some ⟨1⟩)) :=
  (c2_shared_manager_for_derived_files "st" srcOK sessCont cell0 key0 [] ⟨⟨1⟩⟩
    rfl 0 (uniformTs (0 + 1 / 10) (1 / 10) 2) rfl).2

/-- C6: encode computes the destination path deterministically from the
object's identity (and extracted series name) alone: the session
adapter returns `<session dir>/<identifier>.nwb`, the derived-series
adapters return `<mp dir>/<identifier>_<series name>.nwb`, and equal
identity (plus equal series name) yields the identical path string. -/
theorem c6_deterministic_destination_paths (exported : String) :
    (∀ fs1 fs2 a b o1 o2 p1 f1 p2 f2,
      NWBFile.put exported fs1 a o1 = .ok (p1, f1) →
      NWBFile.put exported fs2 b o2 = .ok (p2, f2) →
      p1 = sessionDir exported ++ "/" ++ a.identifier ++ ".nwb"
      ∧ (a.identifier = b.identifier → p1 = p2))
    ∧ (∀ fs1 fs2 a b o1 o2 p1 f1 p2 f2 sa sb,
      extractFirst "PatchClampSeries" a.objects = some sa →
      extractFirst "PatchClampSeries" b.objects = some sb →
      PatchClampSeries.put exported fs1 a o1 = .ok (p1, f1) →
      PatchClampSeries.put exported fs2 b o2 = .ok (p2, f2) →
      p1 = mpDir exported ++ "/" ++ a.identifier ++ "_" ++ sa.name ++ ".nwb"
      ∧ (a.identifier = b.identifier → sa.name = sb.name → p1 = p2))
    ∧ (∀ fs1 fs2 a b o1 o2 p1 f1 p2 f2 sa sb,
      extractFirst "CurrentClampStimulusSeries" a.objects = some sa →
      extractFirst "CurrentClampStimulusSeries" b.objects = some sb →
      CurrentClampStimulusSeries.put exported fs1 a o1 = .ok (p1, f1) →
      CurrentClampStimulusSeries.put exported fs2 b o2 = .ok (p2, f2) →
      p1 = mpDir exported ++ "/" ++ a.identifier ++ "_" ++ sa.name ++ ".nwb"
      ∧ (a.identifier = b.identifier → sa.name = sb.name → p1 = p2)) := by
  refine ⟨?_, ?_, ?_⟩
  · intro fs1 fs2 a b o1 o2 p1 f1 p2 f2 h1 h2
    have e1 := nwbfile_put_path exported fs1 a o1 p1 f1 h1
    have e2 := nwbfile_put_path exported fs2 b o2 p2 f2 h2
    exact ⟨e1, fun hid => by rw [e1, e2, hid]⟩
  · intro fs1 fs2 a b o1 o2 p1 f1 p2 f2 sa sb hEa hEb h1 h2
    have e1 := pcs_put_path exported fs1 a o1 p1 f1 sa hEa h1
    have e2 := pcs_put_path exported fs2 b o2 p2 f2 sb hEb h2
    exact ⟨e1, fun hid hnm => by rw [e1, e2, hid, hnm]⟩
  · intro fs1 fs2 a b o1 o2 p1 f1 p2 f2 sa sb hEa hEb h1 h2
    have e1 := ccs_put_path exported fs1 a o1 p1 f1 sa hEa h1
    have e2 := ccs_put_path exported fs2 b o2 p2 f2 sb hEb h2
    exact ⟨e1, fun hid hnm => by rw [e1, e2, hid, hnm]⟩

/-- Witness for C6 at a concrete session container and store. -/
theorem c6_deterministic_destination_paths_w :
    "st/session/sess1.nwb"
      = sessionDir "st" ++ "/" ++ sampleCont.identifier ++ ".nwb" :=
  ((c6_deterministic_destination_paths "st").1 [] [] sampleCont sampleCont
    .ok .ok "st/session/sess1.nwb"
    [("st/session/sess1.nwb", .complete sampleCont none)]
    "st/session/sess1.nwb"
    [("st/session/sess1.nwb", .complete sampleCont none)] rfl rfl).1

/-- C7: for every timestamp sequence of length at least two read by an
ingestion routine, the stored start time is the first timestamp and the
stored sampling rate is the reciprocal of the mean inter-sample
interval (the span from the first to the last timestamp divided by the
number of intervals); in particular, for a uniformly spaced sequence
with spacing d the stored rate is exactly 1/d. -/
theorem c7_start_time_and_sampling_rate (exported : String)
    (src : SessSource) (sess : NWBCont) (cell : CellRec) (key : Key)
    (fs : FS) (h : IOHandle) (hio : sess.io = some h) :
    (∀ a b l, src.lick_trace_ts = a :: b :: l →
      ∃ r, (LickTrace.make (some src) key fs).row = some r
        ∧ r.lick_trace_start_time = a
        ∧ r.lick_trace_sampling_rate
            = NumV.recip (.num (meanInterval (a :: b :: l))))
    ∧ (∀ a b l, src.membrane_potential_ts = a :: b :: l →
      ∃ r, (MembranePotential.make exported (some src) sess cell key fs .ok).row
          = some r
        ∧ r.membrane_potential_start_time = a
        ∧ r.membrane_potential_sampling_rate
            = NumV.recip (.num (meanInterval (a :: b :: l))))
    ∧ (∀ a b l, src.current_injection_ts = a :: b :: l →
      ∃ r, (CurrentInjection.make exported (some src) sess cell key fs .ok).row
          = some r
        ∧ r.current_injection_start_time = a
        ∧ r.current_injection_sampling_rate
            = NumV.recip (.num (meanInterval (a :: b :: l))))
    ∧ (∀ t0 d n, 2 ≤ n → d ≠ 0 → src.lick_trace_ts = uniformTs t0 d n →
      ∃ r, (LickTrace.make (some src) key fs).row = some r
        ∧ r.lick_trace_start_time = t0
        ∧ r.lick_trace_sampling_rate = .num d⁻¹)
    ∧ (∀ t0 d n, 2 ≤ n → d ≠ 0 → src.current_injection_ts = uniformTs t0 d n →
      ∃ r, (CurrentInjection.make exported (some src) sess cell key fs .ok).row
          = some r
        ∧ r.current_injection_start_time = t0
        ∧ r.current_injection_sampling_rate = .num d⁻¹) := by
  refine ⟨?_, ?_, ?_, ?_, ?_⟩
  · intro a b l hts
    have hmake : LickTrace.make (some src) key fs
        = ⟨some { key := key, lick_trace_left := src.lick_trace_L
                  lick_trace_right := src.lick_trace_R
                  lick_trace_start_time := a
                  lick_trace_sampling_rate := sampRate (a :: b :: l) },
            fs, none, true⟩ := by
      simp only [LickTrace.make, hts, List.head?_cons]
    rw [hmake]
    refine ⟨_, rfl, rfl, ?_⟩
    show sampRate (a :: b :: l) = _
    unfold sampRate
    rw [npMean_npDiff]
  · intro a b l hts
    obtain ⟨p, fs2, hput, hget⟩ := mpPut_ok exported fs sess cell
      src.membrane_potential_data a (sampRate (a :: b :: l)) h hio
    have hmake : MembranePotential.make exported (some src) sess cell key fs .ok
        = ⟨some { key := key, nwb_patch_clamp := p
                  membrane_potential := src.membrane_potential_data
                  membrane_potential_wo_spike := src.vm_wo_spike
                  membrane_potential_start_time := a
                  membrane_potential_sampling_rate := sampRate (a :: b :: l) },
            fs2, none, false⟩ := by
      simp only [MembranePotential.make, hts, List.head?_cons, hput]
    rw [hmake]
    refine ⟨_, rfl, rfl, ?_⟩
    show sampRate (a :: b :: l) = _
    unfold sampRate
    rw [npMean_npDiff]
  · intro a b l hts
    obtain ⟨p, fs2, hput, hget⟩ := ciPut_ok exported fs sess cell
      src.current_injection_data a (sampRate (a :: b :: l)) h hio
    have hmake : CurrentInjection.make exported (some src) sess cell key fs .ok
        = ⟨some { key := key, nwb_current_stim := p
                  current_injection := src.current_injection_data
                  current_injection_start_time := a
                  current_injection_sampling_rate := sampRate (a :: b :: l) },
            fs2, none, false⟩ := by
      simp only [CurrentInjection.make, hts, List.head?_cons, hput]
    rw [hmake]
    refine ⟨_, rfl, rfl, ?_⟩
    show sampRate (a :: b :: l) = _
    unfold sampRate
    rw [npMean_npDiff]
  · intro t0 d n hn hd hts
    obtain ⟨k, rfl⟩ : ∃ k, n = k + 2 := ⟨n - 2, by omega⟩
    have hts2 : src.lick_trace_ts
        = t0 :: (t0 + d) :: uniformTs (t0 + d + d) d k := hts
    have hrate : sampRate (t0 :: (t0 + d) :: uniformTs (t0 + d + d) d k)
        = .num d⁻¹ := sampRate_uniformTs t0 d k hd
    have hmake : LickTrace.make (some src) key fs
        = ⟨some { key := key, lick_trace_left := src.lick_trace_L
                  lick_trace_right := src.lick_trace_R
                  lick_trace_start_time := t0
                  lick_trace_sampling_rate
                    := sampRate (t0 :: (t0 + d) :: uniformTs (t0 + d + d) d k) },
            fs, none, true⟩ := by
      simp only [LickTrace.make, hts2, List.head?_cons]
    rw [hmake]
    exact ⟨_, rfl, rfl, hrate⟩
  · intro t0 d n hn hd hts
    obtain ⟨k, rfl⟩ : ∃ k, n = k + 2 := ⟨n - 2, by omega⟩
    have hts2 : src.current_injection_ts
        = t0 :: (t0 + d) :: uniformTs (t0 + d + d) d k := hts
    have hrate : sampRate (t0 :: (t0 + d) :: uniformTs (t0 + d + d) d k)
        = .num d⁻¹ := sampRate_uniformTs t0 d k hd
    obtain ⟨p, fs2, hput, hget⟩ := ciPut_ok exported fs sess cell
      src.current_injection_data t0
      (sampRate (t0 :: (t0 + d) :: uniformTs (t0 + d + d) d k)) h hio
    have hmake : CurrentInjection.make exported (some src) sess cell key fs .ok
        = ⟨some { key := key, nwb_current_stim := p
                  current_injection := src.current_injection_data
                  current_injection_start_time := t0
                  current_injection_sampling_rate
                    := sampRate (t0 :: (t0 + d) :: uniformTs (t0 + d + d) d k) },
            fs2, none, false⟩ := by
      simp only [CurrentInjection.make, hts2, List.head?_cons, hput]
    rw [hmake]
    exact ⟨_, rfl, rfl, hrate⟩

/-- Witness for C7: the concrete uniform source with spacing 1/10
exercises both the general mean-interval statement and the uniform 1/d
statement. -/
theorem c7_start_time_and_sampling_rate_w :
    (∃ r, (LickTrace.make (some srcOK) key0 []).row = some r
      ∧ r.lick_trace_start_time = 0
      ∧ r.lick_trace_sampling_rate
          = NumV.recip (.num (meanInterval
              (0 :: (0 + 1 / 10)
                :: uniformTs (0 + 1 / 10 + 1 / 10) (1 / 10) 1))))
    ∧ (∃ r, (LickTrace.make (some srcOK) key0 []).row = some r
      ∧ r.lick_trace_start_time = 0
      ∧ r.lick_trace_sampling_rate = .num (1 / 10 : ℚ)⁻¹) := by
  have t := c7_start_time_and_sampling_rate "st" srcOK sessCont cell0 key0 []
    ⟨⟨1⟩⟩ rfl
  exact ⟨t.1 0 (0 + 1 / 10) (uniformTs (0 + 1 / 10 + 1 / 10) (1 / 10) 1) rfl,
    t.2.2.2.1 0 (1 / 10) 3 (by norm_num) (by norm_num) rfl⟩

/-- C8 counterexample: a lick-trace ingestion that completes normally —
no error, row inserted — still leaves the h5 source handle open,
because `LickTrace.make` never closes it on any path. -/
theorem c8_lick_trace_leaks_handle :
    (LickTrace.make (some srcOK) key0 []).err = none
    ∧ (LickTrace.make (some srcOK) key0 []).row.isSome = true
    ∧ (LickTrace.make (some srcOK) key0 []).sourceOpen = true :=
  ⟨rfl, rfl, rfl⟩

/-- Every run of `MembranePotential.make` on a resolved source either
completes with no error and a closed handle, or raises with the handle
left open. -/
theorem mp_make_shape (exported : String) (src : SessSource)
    (sess : NWBCont) (cell : CellRec) (key : Key) (fs : FS)
    (o : WriteOutcome) :
    ((MembranePotential.make exported (some src) sess cell key fs o).err = none
      ∧ (MembranePotential.make exported (some src) sess cell key fs o).sourceOpen
          = false)
    ∨ ((MembranePotential.make exported (some src) sess cell key fs o).err.isSome
          = true
      ∧ (MembranePotential.make exported (some src) sess cell key fs o).sourceOpen
          = true) := by
  cases hts : src.membrane_potential_ts with
  | nil =>
    right
    simp [MembranePotential.make, hts]
  | cons t0 rest =>
    cases hput : PatchClampSeries.put exported fs
        (mpDerived sess cell src.membrane_potential_data t0
          (sampRate (t0 :: rest))) o with
    | error ef =>
      right
      obtain ⟨e, fs'⟩ := ef
      simp [MembranePotential.make, hts, hput]
    | ok pr =>
      left
      obtain ⟨p, fs'⟩ := pr
      simp [MembranePotential.make, hts, hput]

/-- Same shape fact for `CurrentInjection.make`. -/
theorem ci_make_shape (exported : String) (src : SessSource)
    (sess : NWBCont) (cell : CellRec) (key : Key) (fs : FS)
    (o : WriteOutcome) :
    ((CurrentInjection.make exported (some src) sess cell key fs o).err = none
      ∧ (CurrentInjection.make exported (some src) sess cell key fs o).sourceOpen
          = false)
    ∨ ((CurrentInjection.make exported (some src) sess cell key fs o).err.isSome
          = true
      ∧ (CurrentInjection.make exported (some src) sess cell key fs o).sourceOpen
          = true) := by
  cases hts : src.current_injection_ts with
  | nil =>
    right
    simp [CurrentInjection.make, hts]
  | cons t0 rest =>
    cases hput : CurrentClampStimulusSeries.put exported fs
        (ciDerived sess cell src.current_injection_data t0
          (sampRate (t0 :: rest))) o with
    | error ef =>
      right
      obtain ⟨e, fs'⟩ := ef
      simp [CurrentInjection.make, hts, hput]
    | ok pr =>
      left
      obtain ⟨p, fs'⟩ := pr
      simp [CurrentInjection.make, hts, hput]

/-- On a resolved source, the lick-trace routine exits with the handle
open on every path. -/
theorem lick_make_open (src : SessSource) (key : Key) (fs : FS) :
    (LickTrace.make (some src) key fs).sourceOpen = true := by
  cases hts : src.lick_trace_ts with
  | nil => simp only [LickTrace.make, hts, List.head?_nil]
  | cons a l => simp only [LickTrace.make, hts, List.head?_cons]

/-- C8 amended: the intracellular routines release the source handle
only on normal completion — when any step after opening raises, both
routines leave the handle open — and the lick-trace routine never
releases it on any exit path. -/
theorem c8_handle_released_only_on_success (exported : String)
    (located : Option SessSource) (sess : NWBCont) (cell : CellRec)
    (key : Key) (fs : FS) (o : WriteOutcome) :
    ((MembranePotential.make exported located sess cell key fs o).err = none →
      (MembranePotential.make exported located sess cell key fs o).sourceOpen
        = false)
    ∧ ((CurrentInjection.make exported located sess cell key fs o).err = none →
      (CurrentInjection.make exported located sess cell key fs o).sourceOpen
        = false)
    ∧ (∀ e, (MembranePotential.make exported located sess cell key fs o).err
          = some e → e ≠ .fileNotFound →
      (MembranePotential.make exported located sess cell key fs o).sourceOpen
        = true)
    ∧ (∀ e, (CurrentInjection.make exported located sess cell key fs o).err
          = some e → e ≠ .fileNotFound →
      (CurrentInjection.make exported located sess cell key fs o).sourceOpen
        = true)
    ∧ (∀ src, located = some src →
      (LickTrace.make located key fs).sourceOpen = true) := by
  cases located with
  | none =>
    refine ⟨?_, ?_, ?_, ?_, ?_⟩
    · intro hE
      exact absurd (show some AdapterErr.fileNotFound = (none : Option AdapterErr)
        from hE) (by simp)
    · intro hE
      exact absurd (show some AdapterErr.fileNotFound = (none : Option AdapterErr)
        from hE) (by simp)
    · intro e hE hne
      exfalso
      apply hne
      have h2 : some AdapterErr.fileNotFound = some e := hE
      injection h2 with h3
      exact h3.symm
    · intro e hE hne
      exfalso
      apply hne
      have h2 : some AdapterErr.fileNotFound = some e := hE
      injection h2 with h3
      exact h3.symm
    · intro src hsrc
      exact Option.noConfusion hsrc
  | some src =>
    refine ⟨?_, ?_, ?_, ?_, ?_⟩
    · intro hE
      rcases mp_make_shape exported src sess cell key fs o with ⟨h1, h2⟩ | ⟨h1, h2⟩
      · exact h2
      · rw [hE] at h1; simp at h1
    · intro hE
      rcases ci_make_shape exported src sess cell key fs o with ⟨h1, h2⟩ | ⟨h1, h2⟩
      · exact h2
      · rw [hE] at h1; simp at h1
    · intro e hE hne
      rcases mp_make_shape exported src sess cell key fs o with ⟨h1, h2⟩ | ⟨h1, h2⟩
      · rw [hE] at h1; simp at h1
      · exact h2
    · intro e hE hne
      rcases ci_make_shape exported src sess cell key fs o with ⟨h1, h2⟩ | ⟨h1, h2⟩
      · rw [hE] at h1; simp at h1
      · exact h2
    · intro src2 hsrc
      injection hsrc with h3
      subst h3
      exact lick_make_open _ key fs

/-- Witness for the amended C8: a concrete normally completing
membrane-potential run closes the handle; a concrete lick-trace run
leaves it open. -/
theorem c8_handle_released_only_on_success_w :
    (MembranePotential.make "st" (some srcOK) sessCont cell0 key0 [] .ok).sourceOpen
      = false
    ∧ (LickTrace.make (some srcOK) key0 []).sourceOpen = true := by
  have t := c8_handle_released_only_on_success "st" (some srcOK) sessCont cell0
    key0 [] .ok
  exact ⟨t.1 rfl, t.2.2.2.2 srcOK rfl⟩

/-- C9 counterexample: decoding a valid per-series store file yields a
bare sub-object, and handing that decoded value back to the same
adapter's encode does not reproduce any content — it fails at once with
an attribute error, because encode consumes a whole container. -/
theorem c9_series_roundtrip_ill_formed :
    PatchClampSeries.get sampleFS "store/membrane_potential/g.nwb" ⟨⟨5⟩⟩
      = .ok { pcsA with io := some ⟨⟨5⟩⟩ }
    ∧ PatchClampSeries.putVal "st" sampleFS
        (.sub { pcsA with io := some ⟨⟨5⟩⟩ }) .ok
      = .error (.attributeError, sampleFS) :=
  ⟨rfl, rfl⟩

/-- C9 amended: the content round trip holds at container level — the
container read from a valid path, re-encoded with the whole-session
adapter, is stored with identical scientific content (identifier,
arrays, start times, rates), though at the session store's path — while
the derived-series adapters' decoded sub-object cannot itself be
re-encoded: their encode expects the whole container and raises an
attribute error on a bare series. -/
theorem c9_container_roundtrip_preserves_content (fs : FS) (p : String)
    (c : NWBCont) (m : Option Manager) (h : IOHandle) (exported : String)
    (hp : fsGet fs p = some (.complete c m)) :
    (∃ c', NWBFile.get fs p h = .ok c'
      ∧ sciContent c' = sciContent c
      ∧ ∃ p' fs', NWBFile.put exported fs c' .ok = .ok (p', fs')
        ∧ ∃ c2 m2, fsGet fs' p' = some (.complete c2 m2)
          ∧ sciContent c2 = sciContent c)
    ∧ (∀ s o, PatchClampSeries.putVal exported fs (.sub s) o
        = .error (.attributeError, fs)) := by
  refine ⟨⟨{ c with io := some h }, ?_, rfl, ?_⟩, fun s o => rfl⟩
  · unfold NWBFile.get; rw [hp]
  · exact ⟨sessionDir exported ++ "/" ++ c.identifier ++ ".nwb",
      fsSet fs (sessionDir exported ++ "/" ++ c.identifier ++ ".nwb")
        (.complete { c with io := some h } none), rfl,
      { c with io := some h }, none, fsGet_fsSet fs _ _, rfl⟩

/-- Witness for the amended C9: the decoded-series branch at a concrete
store and series. -/
theorem c9_container_roundtrip_preserves_content_w :
    PatchClampSeries.putVal "st" sampleFS (.sub pcsB) .failNoFile
      = .error (.attributeError, sampleFS) :=
  (c9_container_roundtrip_preserves_content sampleFS "store/session/sess0.nwb"
    emptyCont none ⟨⟨4⟩⟩ "st" rfl).2 pcsB .failNoFile
